import Mathlib

/-!
Verification of the whalebone-mcp-server response-shaping pipeline and
request gateway, shallowly embedded from the TypeScript source
(`WhaleboneClient` and the `CallToolRequestSchema` handler).

Modelling conventions:
* JavaScript strings are modelled as `List Char` (one entry per UTF-16 unit;
  all concrete inputs used below are ASCII, where the two notions agree).
* JSON values are the nested inductive `Json`; numbers are modelled as `Int`
  (the pipeline itself only ever constructs integer counts).
* `JSON.stringify(x)` is modelled by `stringify`, including JSON string
  escaping; `JSON.stringify(x, null, 2)` by `stringifyPretty`.
* JavaScript `maxSize / itemSize * 0.8` (double arithmetic) is modelled by
  the exact rational floor `(4 * maxSize) / (5 * itemSize)` over `Nat`;
  `Math.floor(a / b)` on nonnegative integers is `Nat` division.  Division
  by zero: JS produces `Infinity`, making `maxItems = 0`; `Nat` division by
  zero also yields `0`, so the two agree on the degenerate empty-array path.
* The TypeScript optional config fields with `|| DEFAULT` fallbacks are
  modelled by `Nat` fields where `0` plays the role of every falsy value
  (`undefined`, `NaN`, `0`).
-/

namespace Whalebone

/-- A JSON value, as produced by `JSON.parse` / consumed by `JSON.stringify`.
Strings are lists of UTF-16 units (modelled as `Char`). -/
inductive Json where
  | null
  | bool (b : Bool)
  | num (n : Int)
  | str (s : List Char)
  | obj (fields : List (String × Json))
  | arr (elems : List Json)
deriving Inhabited

/-- Whether a JSON value is an array (`Array.isArray` in the source). -/
def Json.isArr : Json → Bool
  | .arr _ => true
  | _ => false

/-- Decimal digit to character, for rendering JavaScript numbers. -/
def digitChar (d : Nat) : Char := Char.ofNat (48 + d)

/-- Digits of a positive natural number, most significant first; structural
on a fuel argument so the definition evaluates by kernel reduction.  Any
fuel at least the number `n` itself suffices, since dividing by ten reaches
zero within `n` steps. -/
def jsNatAux : Nat → Nat → List Char
  | 0, _ => []
  | fuel + 1, n =>
      if n = 0 then [] else jsNatAux fuel (n / 10) ++ [digitChar (n % 10)]

/-- Decimal rendering of a natural number, as JavaScript template-literal
interpolation renders an integer-valued number (all counts rendered by the
source are below 2^32, where JS uses plain decimal notation). -/
def jsNat (n : Nat) : List Char :=
  if n = 0 then ['0'] else jsNatAux n n

/-- Decimal rendering of an integer-valued JavaScript number. -/
def jsInt (n : Int) : List Char :=
  if n < 0 then '-' :: jsNat n.natAbs else jsNat n.natAbs

/-- JSON string escaping of one UTF-16 unit, as `JSON.stringify` performs it. -/
def escChar (c : Char) : List Char :=
  if c = '"' then ['\\', '"']
  else if c = '\\' then ['\\', '\\']
  else if c = Char.ofNat 10 then ['\\', 'n']
  else if c = Char.ofNat 13 then ['\\', 'r']
  else if c = Char.ofNat 9 then ['\\', 't']
  else if c = Char.ofNat 8 then ['\\', 'b']
  else if c = Char.ofNat 12 then ['\\', 'f']
  else if c.toNat < 32 then
    ['\\', 'u', '0', '0', digitChar (c.toNat / 16), digitChar (c.toNat % 16)]
  else [c]

/-- JSON rendering of a string body (no surrounding quotes). -/
def escString (s : List Char) : List Char := s.flatMap escChar

/-- JSON rendering of a quoted string. -/
def quoteString (s : List Char) : List Char := '"' :: escString s ++ ['"']

mutual
/-- `JSON.stringify(j)` (compact form, no whitespace). -/
def stringify : Json → List Char
  | .null => "null".data
  | .bool true => "true".data
  | .bool false => "false".data
  | .num n => jsInt n
  | .str s => quoteString s
  | .obj fs => Char.ofNat 123 :: stringifyFields fs ++ [Char.ofNat 125]
  | .arr es => '[' :: stringifyElems es ++ [']']

/-- Comma-separated rendering of object members. -/
def stringifyFields : List (String × Json) → List Char
  | [] => []
  | [(k, v)] => quoteString k.data ++ ':' :: stringify v
  | (k, v) :: kv :: fs =>
      quoteString k.data ++ ':' :: stringify v ++ ',' :: stringifyFields (kv :: fs)

/-- Comma-separated rendering of array elements. -/
def stringifyElems : List Json → List Char
  | [] => []
  | [e] => stringify e
  | e :: e2 :: es => stringify e ++ ',' :: stringifyElems (e2 :: es)
end

/-- The process-lifetime configuration record (`WhaleboneConfig` plus the
environment-derived `config` constant).  `maxResults` and `maxResponseSize`
use `0` to model every falsy value of the optional TS fields. -/
structure Config where
  accessKey : String
  secretKey : String
  baseUrl : String
  maxResults : Nat
  maxResponseSize : Nat
  enableTruncation : Bool

/-- `DEFAULT_MAX_RESULTS` from the source. -/
def DEFAULT_MAX_RESULTS : Nat := 50

/-- `DEFAULT_MAX_RESPONSE_SIZE` from the source. -/
def DEFAULT_MAX_RESPONSE_SIZE : Nat := 50000

/-- `MAX_STRING_LENGTH` from the source. -/
def MAX_STRING_LENGTH : Nat := 1000

/-- `this.config.maxResults || DEFAULT_MAX_RESULTS`. -/
def effMaxResults (cfg : Config) : Nat :=
  if cfg.maxResults = 0 then DEFAULT_MAX_RESULTS else cfg.maxResults

/-- `this.config.maxResponseSize || DEFAULT_MAX_RESPONSE_SIZE`. -/
def effMaxSize (cfg : Config) : Nat :=
  if cfg.maxResponseSize = 0 then DEFAULT_MAX_RESPONSE_SIZE else cfg.maxResponseSize

/-- The `"... [truncated]"` marker appended by `truncateString`. -/
def truncMarker : List Char := "... [truncated]".data

/-- `truncateString` from the source: cut a string above `MAX_STRING_LENGTH`
units and append the marker; identity when truncation is disabled. -/
def truncateString (cfg : Config) (s : List Char) : List Char :=
  if cfg.enableTruncation = false ∨ s.length ≤ MAX_STRING_LENGTH then s
  else s.take MAX_STRING_LENGTH ++ truncMarker

mutual
/-- `truncateObject` from the source: recursively truncate every string leaf;
identity when truncation is disabled. -/
def truncateObject (cfg : Config) (j : Json) : Json :=
  if cfg.enableTruncation = false then j
  else match j with
    | .str s => .str (truncateString cfg s)
    | .arr es => .arr (truncateElems cfg es)
    | .obj fs => .obj (truncateFields cfg fs)
    | other => other

/-- `obj.map(item => this.truncateObject(item))` over array elements. -/
def truncateElems (cfg : Config) : List Json → List Json
  | [] => []
  | e :: es => truncateObject cfg e :: truncateElems cfg es

/-- The `Object.entries` walk of `truncateObject` over object members. -/
def truncateFields (cfg : Config) : List (String × Json) → List (String × Json)
  | [] => []
  | (k, v) :: fs => (k, truncateObject cfg v) :: truncateFields cfg fs
end

/-- The explanatory message of the stage-1 wrapper object. -/
def limitMsg (maxResults total : Nat) : List Char :=
  "Results limited to ".data ++ jsNat maxResults ++ " items out of ".data ++
    jsNat total ++ " total. Use pagination parameters to access more results.".data

/-- The array branch of `limitResults`: slice to `maxResults` elements and
wrap when the original length exceeds the limit. -/
def limitArray (maxResults : Nat) (xs : List Json) : Json :=
  let limited := xs.take maxResults
  if maxResults < xs.length then
    .obj [("results", .arr limited),
          ("total_available", .num xs.length),
          ("returned", .num limited.length),
          ("truncated", .bool true),
          ("message", .str (limitMsg maxResults xs.length))]
  else .arr limited

/-- `limitResults` from the source.  The source recurses
`this.limitResults(value, maxResults)` only on values that are arrays, so
that recursive call always lands in the array branch, embedded here as
`limitArray`. -/
def limitResults (cfg : Config) (data : Json) : Json :=
  let maxResults := effMaxResults cfg
  match data with
  | .arr xs => limitArray maxResults xs
  | .obj fs =>
      .obj (fs.map fun kv =>
        match kv.2 with
        | .arr ys => (kv.1, limitArray maxResults ys)
        | v => (kv.1, v))
  | other => other

/-- The explanatory message of the stage-3 wrapper object. -/
def sizeMsg (returned total : Nat) : List Char :=
  "Response truncated due to size constraints. Showing ".data ++ jsNat returned ++
    " of ".data ++ jsNat total ++ " items.".data

/-- `enforceResponseSize` from the source.  `Math.floor(maxSize / itemSize
* 0.8)` is modelled by the exact rational floor `(4 * maxSize) / (5 *
itemSize)`. -/
def enforceResponseSize (cfg : Config) (data : Json) : Json :=
  let jsonString := stringify data
  let maxSize := effMaxSize cfg
  if jsonString.length ≤ maxSize then data
  else match data with
    | .arr xs =>
        let itemSize := jsonString.length / xs.length
        let maxItems := (4 * maxSize) / (5 * itemSize)
        let kept : Nat := max 1 maxItems
        .obj [("results", .arr (xs.take kept)),
              ("total_available", .num xs.length),
              ("returned", .num kept),
              ("truncated", .bool true),
              ("message", .str (sizeMsg kept xs.length))]
    | other => truncateObject cfg other

/-- `processResponse` from the source: count limiting, then string
truncation, then total-size enforcement. -/
def processResponse (cfg : Config) (data : Json) : Json :=
  enforceResponseSize cfg (truncateObject cfg (limitResults cfg data))

/-! ### The API gateway (`makeRequest`) and the tool-call handler -/

/-- One value of the argument bag handed to `makeRequest`: absent
(`undefined`), `null`, a scalar, or an array of strings (the only array
parameters declared by the tool schemas are string arrays). -/
inductive Arg where
  | undef
  | jsNull
  | s (v : List Char)
  | n (v : Int)
  | b (v : Bool)
  | list (vs : List (List Char))
deriving Inhabited, DecidableEq

/-- `value.toString()` for the scalar argument kinds. -/
def argToString : Arg → List Char
  | .s v => v
  | .n v => jsInt v
  | .b true => "true".data
  | .b false => "false".data
  | _ => []

/-- JavaScript truthiness test `!toolArgs.fqdn` on an argument value. -/
def argFalsy : Arg → Bool
  | .undef => true
  | .jsNull => true
  | .s v => v.isEmpty
  | .n v => v = 0
  | .b v => !v
  | .list _ => false

/-- One iteration of the `Object.entries(params).forEach` loop of
`makeRequest`: append a non-absent, non-null argument to the accumulated
search parameters, one occurrence per element for array values. -/
def addStep (acc : List (String × List Char)) (kv : String × Arg) :
    List (String × List Char) :=
  match kv.2 with
  | .undef => acc
  | .jsNull => acc
  | .list vs => acc ++ vs.map fun x => (kv.1, x)
  | v => acc ++ [(kv.1, argToString v)]

/-- The `Object.entries(params).forEach` loop of `makeRequest`.  The
accumulator is the ordered list of appended `(key, value)` pairs. -/
def addParams (params : List (String × Arg)) : List (String × List Char) :=
  params.foldl addStep []

/-- The query-string rendering of the appended search parameters (all
concrete values considered below are unreserved characters, which
`URLSearchParams` serializes verbatim). -/
def queryString (q : List (String × List Char)) : List Char :=
  (List.intercalate ['&'] (q.map fun kv => kv.1.data ++ '=' :: kv.2))

/-- The outcome of the one `fetch` call a tool invocation performs: the HTTP
status, the status text, and the parsed JSON body. -/
structure HttpResponse where
  status : Nat
  statusText : List Char
  body : Json

/-- `response.ok`: status in the 2xx range. -/
def respOk (r : HttpResponse) : Bool := 200 ≤ r.status && r.status ≤ 299

/-- The message of the error thrown on a non-2xx status. -/
def apiErrMsg (r : HttpResponse) : List Char :=
  "Whalebone API error: ".data ++ jsNat r.status ++ ' ' :: r.statusText

/-- `makeRequest` from the source, with the transport injected as the
`HttpResponse` it would yield: non-2xx statuses raise the API error
(modelled by `Except.error`), 2xx bodies are handed to `processResponse`. -/
def makeRequest (cfg : Config) (resp : HttpResponse) : Except (List Char) Json :=
  if respOk resp then .ok (processResponse cfg resp.body)
  else .error (apiErrMsg resp)

/-- The per-tool routing of the `CallToolRequestSchema` handler switch: maps
a tool name and argument bag to the endpoint path and the parameter bag
passed to `makeRequest`, or to the locally raised error.  Mirrors the
`switch (name)` of the source; the privacy-sensitive `get_audit_logs` /
`get_idp_incidents` cases are commented out in the source and therefore
fall to the `default` branch. -/
def route (name : String) (args : List (String × Arg)) :
    Except (List Char) (String × List (String × Arg)) :=
  match name with
  | "search_events" => .ok ("/events/search", args)
  | "get_events_timeline" => .ok ("/events/timeline", args)
  | "get_events_stats" => .ok ("/events/stats", args)
  | "get_dns_timeline" => .ok ("/dns/timeline", args)
  | "get_dnssec_timeline" => .ok ("/dnssec/timeline", args)
  | "get_ioc_count" => .ok ("/ioc/count", [])
  | "get_resolver_metrics" => .ok ("/resolver/metrics", args)
  | "analyze_domain" =>
      match args.lookup "fqdn" with
      | none => .error "fqdn parameter is required".data
      | some v =>
          if argFalsy v then .error "fqdn parameter is required".data
          else .ok ("/domain/analysis", [("fqdn", v)])
  | other => .error ("Unknown tool: ".data ++ other.data)

/-- Whether a character list occurs contiguously inside another
(`String.prototype.includes`). -/
def containsSub (needle hay : List Char) : Bool :=
  hay.tails.any fun t => needle.isPrefixOf t

/-- The size-hint enrichment of the handler's catch block. -/
def enrich (msg : List Char) : List Char :=
  if containsSub "too large".data msg || containsSub "truncated".data msg then
    msg ++ "\n\nTip: Try using more specific filters (date ranges, domains, IPs) or pagination to get smaller result sets.".data
  else msg

/-- Indentation for `JSON.stringify(x, null, 2)`. -/
def indentChars (n : Nat) : List Char := List.replicate n ' '

mutual
/-- `JSON.stringify(j, null, 2)`: the pretty form the handler returns for a
successful invocation. -/
def stringifyPretty (ind : Nat) : Json → List Char
  | .obj [] => [Char.ofNat 123, Char.ofNat 125]
  | .obj fs =>
      Char.ofNat 123 :: '\n' :: prettyFields ind fs ++
        '\n' :: indentChars ind ++ [Char.ofNat 125]
  | .arr [] => ['[', ']']
  | .arr es => '[' :: '\n' :: prettyElems ind es ++ '\n' :: indentChars ind ++ [']']
  | j => stringify j

/-- Members of a pretty-printed object, one per line. -/
def prettyFields (ind : Nat) : List (String × Json) → List Char
  | [] => []
  | [(k, v)] =>
      indentChars (ind + 2) ++ quoteString k.data ++ ':' :: ' ' ::
        stringifyPretty (ind + 2) v
  | (k, v) :: kv :: fs =>
      indentChars (ind + 2) ++ quoteString k.data ++ ':' :: ' ' ::
        stringifyPretty (ind + 2) v ++ ',' :: '\n' :: prettyFields ind (kv :: fs)

/-- Elements of a pretty-printed array, one per line. -/
def prettyElems (ind : Nat) : List Json → List Char
  | [] => []
  | [e] => indentChars (ind + 2) ++ stringifyPretty (ind + 2) e
  | e :: e2 :: es =>
      indentChars (ind + 2) ++ stringifyPretty (ind + 2) e ++
        ',' :: '\n' :: prettyElems ind (e2 :: es)
end

/-- The payload the handler returns to the protocol layer: the single text
content item and the `isError` flag (absent on success, modelled `false`). -/
structure ToolResponse where
  text : List Char
  isError : Bool
deriving Inhabited, DecidableEq

/-- The `CallToolRequestSchema` handler body for one invocation, given the
transport outcome `resp` of the single outbound request (consulted only when
a request is actually issued).  Returns the response payload together with
the number of outbound HTTP requests issued (0 or 1).  Every raised error is
caught and converted to a textual payload with `isError := true`. -/
def handleToolCall (cfg : Config) (resp : HttpResponse) (name : String)
    (args : List (String × Arg)) : ToolResponse × Nat :=
  match route name args with
  | .error e => (⟨"Error: ".data ++ enrich e, true⟩, 0)
  | .ok _ =>
      match makeRequest cfg resp with
      | .error e => (⟨"Error: ".data ++ enrich e, true⟩, 1)
      | .ok j => (⟨stringifyPretty 0 j, false⟩, 1)

/-- The full URL built by `makeRequest` before the `fetch` call:
`baseUrl + endpoint` with the appended search parameters. -/
def requestURL (cfg : Config) (endpoint : String) (params : List (String × Arg)) :
    List Char :=
  let q := addParams params
  cfg.baseUrl.data ++ endpoint.data ++ (if q.isEmpty then [] else '?' :: queryString q)

/-! ### General-purpose lemmas about the embedded operations -/

/-- Structural induction over `Json`, with pointwise hypotheses for the
nested lists of an array or object. -/
def Json.inductionOn {P : Json → Prop}
    (hnull : P .null) (hbool : ∀ b, P (.bool b)) (hnum : ∀ n, P (.num n))
    (hstr : ∀ s, P (.str s))
    (hobj : ∀ fs, (∀ k v, (k, v) ∈ fs → P v) → P (.obj fs))
    (harr : ∀ es, (∀ e ∈ es, P e) → P (.arr es)) :
    ∀ j, P j
  | .null => hnull
  | .bool b => hbool b
  | .num n => hnum n
  | .str s => hstr s
  | .obj fs => hobj fs fun k v _hkv =>
      Json.inductionOn hnull hbool hnum hstr hobj harr v
  | .arr es => harr es fun e _he =>
      Json.inductionOn hnull hbool hnum hstr hobj harr e
termination_by j => sizeOf j
decreasing_by
  · have h1 := List.sizeOf_lt_of_mem _hkv
    simp only [Prod.mk.sizeOf_spec] at h1
    simp only [Json.obj.sizeOf_spec]
    omega
  · have h1 := List.sizeOf_lt_of_mem _he
    simp only [Json.arr.sizeOf_spec]
    omega

/-- `jsNatAux` renders a number below `10 ^ d` in at most `d` digits, for
any fuel. -/
theorem jsNatAux_length_le :
    ∀ (fuel n d : Nat), n < 10 ^ d → (jsNatAux fuel n).length ≤ d := by
  intro fuel
  induction fuel with
  | zero => intro n d _; simp [jsNatAux]
  | succ fuel ih =>
    intro n d hn
    rw [jsNatAux]
    split
    · simp
    · rename_i h0
      have hd : d ≠ 0 := by
        intro hd0
        subst hd0
        simp at hn
        omega
      obtain ⟨e, rfl⟩ : ∃ e, d = e + 1 := ⟨d - 1, by omega⟩
      have hdiv : n / 10 < 10 ^ e := by
        have : n < 10 ^ e * 10 := by rw [← pow_succ]; exact hn
        omega
      have := ih (n / 10) e hdiv
      simp only [List.length_append, List.length_cons, List.length_nil]
      omega

/-- A natural number below `10 ^ d` renders in at most `d` digits. -/
theorem jsNat_length_le (d : Nat) :
    ∀ n, n < 10 ^ d → 0 < d → (jsNat n).length ≤ d := by
  intro n hn hd
  rw [jsNat]
  split
  · simpa using hd
  · exact jsNatAux_length_le n n d hn

/-- `truncateString` is the identity on strings within the limit. -/
theorem truncateString_of_le (cfg : Config) (s : List Char)
    (h : s.length ≤ MAX_STRING_LENGTH) : truncateString cfg s = s := by
  simp [truncateString, h]

/-- `truncateString` leaves its own output unchanged: the output's first
`MAX_STRING_LENGTH` units are exactly the kept prefix of the input, so a
second cut reproduces the same string. -/
theorem truncateString_idem (cfg : Config) (s : List Char) :
    truncateString cfg (truncateString cfg s) = truncateString cfg s := by
  by_cases he : cfg.enableTruncation = false
  · simp [truncateString, he]
  · by_cases hl : s.length ≤ MAX_STRING_LENGTH
    · simp [truncateString, hl]
    · have h1 : truncateString cfg s = s.take MAX_STRING_LENGTH ++ truncMarker := by
        rw [truncateString, if_neg]; push_neg; exact ⟨he, by omega⟩
      have hlen : (s.take MAX_STRING_LENGTH).length = MAX_STRING_LENGTH := by
        simp [List.length_take]; omega
      rw [h1, truncateString, if_neg]
      · rw [List.take_append_eq_append_take, hlen]
        simp [List.take_take, List.take_of_length_le (Nat.le_of_eq hlen)]
      · push_neg
        refine ⟨he, ?_⟩
        simp only [List.length_append, hlen]
        have : 0 < truncMarker.length := by decide
        omega

/-- `truncateElems` is the elementwise map of `truncateObject`. -/
theorem truncateElems_eq_map (cfg : Config) :
    ∀ es : List Json, truncateElems cfg es = es.map (truncateObject cfg)
  | [] => rfl
  | e :: es => by
      rw [truncateElems, List.map_cons, truncateElems_eq_map cfg es]

/-- `truncateFields` is the valuewise map of `truncateObject`. -/
theorem truncateFields_eq_map (cfg : Config) :
    ∀ fs : List (String × Json),
      truncateFields cfg fs = fs.map fun kv => (kv.1, truncateObject cfg kv.2)
  | [] => rfl
  | (k, v) :: fs => by
      rw [truncateFields, List.map_cons, truncateFields_eq_map cfg fs]

/-- With truncation disabled, `truncateObject` is the identity. -/
theorem truncateObject_off (cfg : Config) (he : cfg.enableTruncation = false)
    (j : Json) : truncateObject cfg j = j := by
  rw [truncateObject.eq_def, if_pos he]

/-- Constructor computation rule for `truncateObject` on `null`. -/
theorem truncateObject_null (cfg : Config) (he : ¬cfg.enableTruncation = false) :
    truncateObject cfg .null = .null := by
  rw [truncateObject.eq_def, if_neg he]

/-- Constructor computation rule for `truncateObject` on booleans. -/
theorem truncateObject_bool (cfg : Config) (he : ¬cfg.enableTruncation = false)
    (b : Bool) : truncateObject cfg (.bool b) = .bool b := by
  rw [truncateObject.eq_def, if_neg he]

/-- Constructor computation rule for `truncateObject` on numbers. -/
theorem truncateObject_num (cfg : Config) (he : ¬cfg.enableTruncation = false)
    (n : Int) : truncateObject cfg (.num n) = .num n := by
  rw [truncateObject.eq_def, if_neg he]

/-- Constructor computation rule for `truncateObject` on strings. -/
theorem truncateObject_str (cfg : Config) (he : ¬cfg.enableTruncation = false)
    (s : List Char) : truncateObject cfg (.str s) = .str (truncateString cfg s) := by
  rw [truncateObject.eq_def, if_neg he]

/-- Constructor computation rule for `truncateObject` on arrays. -/
theorem truncateObject_arr (cfg : Config) (he : ¬cfg.enableTruncation = false)
    (es : List Json) :
    truncateObject cfg (.arr es) = .arr (es.map (truncateObject cfg)) := by
  rw [truncateObject.eq_def, if_neg he]
  exact congrArg Json.arr (truncateElems_eq_map cfg es)

/-- Constructor computation rule for `truncateObject` on objects. -/
theorem truncateObject_obj (cfg : Config) (he : ¬cfg.enableTruncation = false)
    (fs : List (String × Json)) :
    truncateObject cfg (.obj fs) =
      .obj (fs.map fun kv => (kv.1, truncateObject cfg kv.2)) := by
  rw [truncateObject.eq_def, if_neg he]
  exact congrArg Json.obj (truncateFields_eq_map cfg fs)

/-- `truncateObject` is idempotent. -/
theorem truncateObject_idem (cfg : Config) :
    ∀ j, truncateObject cfg (truncateObject cfg j) = truncateObject cfg j := by
  by_cases he : cfg.enableTruncation = false
  · intro j; rw [truncateObject_off cfg he]
  · intro j
    induction j using Json.inductionOn with
    | hnull => rw [truncateObject_null cfg he, truncateObject_null cfg he]
    | hbool b => rw [truncateObject_bool cfg he, truncateObject_bool cfg he]
    | hnum n => rw [truncateObject_num cfg he, truncateObject_num cfg he]
    | hstr s =>
        rw [truncateObject_str cfg he, truncateObject_str cfg he,
          truncateString_idem]
    | harr es ih =>
        rw [truncateObject_arr cfg he, truncateObject_arr cfg he, List.map_map]
        exact congrArg Json.arr (List.map_eq_map_iff.mpr fun e hee => ih e hee)
    | hobj fs ih =>
        rw [truncateObject_obj cfg he, truncateObject_obj cfg he, List.map_map]
        refine congrArg Json.obj (List.map_eq_map_iff.mpr fun kv hkv => ?_)
        simp only [Function.comp]
        exact congrArg _ (ih kv.1 kv.2 hkv)

/-- `enforceResponseSize` returns its input unchanged when the serialization
already fits the budget. -/
theorem enforce_of_le (cfg : Config) (j : Json)
    (h : (stringify j).length ≤ effMaxSize cfg) : enforceResponseSize cfg j = j := by
  simp only [enforceResponseSize.eq_def]
  rw [if_pos h]

/-- `limitResults` leaves an array within the count limit unchanged. -/
theorem limitResults_arr_of_le (cfg : Config) (xs : List Json)
    (h : xs.length ≤ effMaxResults cfg) : limitResults cfg (.arr xs) = .arr xs := by
  show limitArray (effMaxResults cfg) xs = .arr xs
  simp only [limitArray]
  rw [if_neg (by omega), List.take_of_length_le h]

/-- The wrapper produced by the array branch of `limitResults` on an
over-long array. -/
theorem limitArray_of_lt (m : Nat) (xs : List Json) (h : m < xs.length) :
    limitArray m xs =
      .obj [("results", .arr (xs.take m)),
            ("total_available", .num xs.length),
            ("returned", .num m),
            ("truncated", .bool true),
            ("message", .str (limitMsg m xs.length))] := by
  simp only [limitArray]
  rw [if_pos h]
  have hlen : (xs.take m).length = m := by
    simp [List.length_take]
    omega
  rw [hlen]

/-! ### Concrete configurations used by witnesses and counterexamples -/

/-- The default configuration: truncation enabled, default limits. -/
def cfgA : Config := ⟨"", "", "https://api.whalebone.io/whalebone/2", 50, 50000, true⟩

/-- Truncation disabled, default limits. -/
def cfgB : Config := ⟨"", "", "https://api.whalebone.io/whalebone/2", 50, 50000, false⟩

/-- Truncation enabled, size budget of 10 serialized characters. -/
def cfgSmall : Config := ⟨"", "", "", 50, 10, true⟩

/-- Truncation enabled, size budget of 5 serialized characters. -/
def cfgTiny : Config := ⟨"", "", "", 50, 5, true⟩

/-- Truncation disabled, size budget of 5 serialized characters. -/
def cfgTinyOff : Config := ⟨"", "", "", 50, 5, false⟩

/-! ### Claim C1 -/

/-- C1 is false as stated: with truncation enabled, `processResponse` of the
object `{"a": "bb", "c": "dd"}` under `maxResponseSize = 10` serializes to 19
characters, exceeding the budget, although every preserved item (every member
value, all kept verbatim) serializes to at most 4 ≤ 10 characters.  Stage 3's
fallback for non-sequence values only re-runs string truncation, which cannot
shrink an object made of many short strings. -/
theorem claim_C1_counterexample :
    effMaxSize cfgSmall <
      (stringify (processResponse cfgSmall
        (.obj [("a", .str "bb".data), ("c", .str "dd".data)]))).length ∧
    ∀ kv ∈ [("a", Json.str "bb".data), ("c", Json.str "dd".data)],
      (stringify kv.2).length ≤ effMaxSize cfgSmall := by decide

/-- C1 amended: the serialized output is within `maxResponseSize` whenever
the value entering stage 3 (the stage-2 output) already fits the budget;
otherwise enforcement is best-effort and the output may exceed the budget
even when no single preserved item alone exceeds it. -/
theorem claim_C1_amended (cfg : Config) (v : Json)
    (h : (stringify (truncateObject cfg (limitResults cfg v))).length ≤
      effMaxSize cfg) :
    (stringify (processResponse cfg v)).length ≤ effMaxSize cfg := by
  rw [processResponse, enforce_of_le cfg _ h]
  exact h

/-- Witness for `claim_C1_amended` at `v = null` under the default
configuration. -/
theorem claim_C1_witness :
    (stringify (truncateObject cfgA (limitResults cfgA .null))).length ≤
      effMaxSize cfgA ∧
    (stringify (processResponse cfgA .null)).length ≤ effMaxSize cfgA :=
  ⟨by decide, claim_C1_amended cfgA .null (by decide)⟩

/-! ### Claim C2 -/

/-- C2 is false as stated: with truncation disabled, stage 3's sequence
branch still wraps an oversized array, so `processResponse` is not the
count-limiting stage alone.  Under `maxResponseSize = 5`, the two-element
array `["hello","world"]` (17 serialized characters, count within
`maxResults`) is replaced by a wrapper object. -/
theorem claim_C2_counterexample :
    processResponse cfgTinyOff (.arr [.str "hello".data, .str "world".data]) ≠
      limitResults cfgTinyOff (.arr [.str "hello".data, .str "world".data]) :=
  fun h => absurd (congrArg Json.isArr h) (by decide)

/-- C2 amended: with truncation disabled, stage 2 and stage 3's
string-truncation fallback are no-ops, so `processResponse` is exactly
stage 3's size enforcement applied to stage 1's output; when the stage-1
output additionally fits `maxResponseSize`, `processResponse` is exactly the
count-limiting stage. -/
theorem claim_C2_amended (cfg : Config) (v : Json)
    (he : cfg.enableTruncation = false) :
    processResponse cfg v = enforceResponseSize cfg (limitResults cfg v) ∧
    ((stringify (limitResults cfg v)).length ≤ effMaxSize cfg →
      processResponse cfg v = limitResults cfg v) := by
  have h1 : processResponse cfg v = enforceResponseSize cfg (limitResults cfg v) := by
    rw [processResponse, truncateObject_off cfg he]
  exact ⟨h1, fun h2 => by rw [h1, enforce_of_le cfg _ h2]⟩

/-- Witness for `claim_C2_amended` at `v = null` with truncation disabled. -/
theorem claim_C2_witness :
    cfgB.enableTruncation = false ∧
    (stringify (limitResults cfgB .null)).length ≤ effMaxSize cfgB ∧
    processResponse cfgB .null = limitResults cfgB .null :=
  ⟨by decide, by decide, (claim_C2_amended cfgB .null (by decide)).2 (by decide)⟩

/-! ### Claim C4 -/

/-- C4: for a sequence longer than `maxResults`, the count-limiting stage
returns the wrapper whose `returned` is `maxResults`, `total_available` the
original length, `truncated` true, and `results` the first `maxResults`
elements in original order. -/
theorem claim_C4_wrapper (cfg : Config) (xs : List Json)
    (h : effMaxResults cfg < xs.length) :
    limitResults cfg (.arr xs) =
      .obj [("results", .arr (xs.take (effMaxResults cfg))),
            ("total_available", .num xs.length),
            ("returned", .num (effMaxResults cfg)),
            ("truncated", .bool true),
            ("message", .str (limitMsg (effMaxResults cfg) xs.length))] := by
  show limitArray (effMaxResults cfg) xs = _
  exact limitArray_of_lt (effMaxResults cfg) xs h

/-- Witness for `claim_C4_wrapper`: a 51-element array under the default
limit of 50. -/
theorem claim_C4_witness :
    effMaxResults cfgA < (List.replicate 51 Json.null).length ∧
    limitResults cfgA (.arr (List.replicate 51 Json.null)) =
      .obj [("results", .arr ((List.replicate 51 Json.null).take (effMaxResults cfgA))),
            ("total_available", .num (List.replicate 51 Json.null).length),
            ("returned", .num (effMaxResults cfgA)),
            ("truncated", .bool true),
            ("message", .str (limitMsg (effMaxResults cfgA)
              (List.replicate 51 Json.null).length))] :=
  ⟨by decide, claim_C4_wrapper cfgA (List.replicate 51 Json.null) (by decide)⟩

/-! ### Claim C5 -/

/-- C5 is false as stated about the full Shaper: a two-element array (within
`maxResults = 50`) whose serialization exceeds `maxResponseSize = 5` is
replaced by stage 3's wrapper object, so `processResponse` does not return
it unchanged. -/
theorem claim_C5_counterexample :
    processResponse cfgTiny (.arr [.str "hello".data, .str "world".data]) ≠
      .arr [.str "hello".data, .str "world".data] :=
  fun h => absurd (congrArg Json.isArr h) (by decide)

/-- C5 amended: the count-limiting stage returns a sequence within
`maxResults` unchanged (identity law for stage 1); the full pipeline returns
it unchanged when stages 2 and 3 do not act, for instance when truncation is
disabled and the serialization fits `maxResponseSize`. -/
theorem claim_C5_amended (cfg : Config) (xs : List Json)
    (h : xs.length ≤ effMaxResults cfg) :
    limitResults cfg (.arr xs) = .arr xs ∧
    (cfg.enableTruncation = false →
      (stringify (.arr xs)).length ≤ effMaxSize cfg →
      processResponse cfg (.arr xs) = .arr xs) := by
  refine ⟨limitResults_arr_of_le cfg xs h, fun he hs => ?_⟩
  rw [processResponse, limitResults_arr_of_le cfg xs h,
    truncateObject_off cfg he, enforce_of_le cfg _ hs]

/-- Witness for `claim_C5_amended`: a singleton array, truncation disabled,
serialization within the default budget. -/
theorem claim_C5_witness :
    ([Json.null] : List Json).length ≤ effMaxResults cfgB ∧
    cfgB.enableTruncation = false ∧
    (stringify (.arr [Json.null])).length ≤ effMaxSize cfgB ∧
    processResponse cfgB (.arr [Json.null]) = .arr [Json.null] :=
  ⟨by decide, by decide, by decide,
    (claim_C5_amended cfgB [Json.null] (by decide)).2 (by decide) (by decide)⟩

/-! ### Claim C6 -/

/-- C6 is false as stated: a 1001-character string is cut to exactly 1000
kept units plus the 15-character marker (1015 in total), not 1001 plus the
marker (1016). -/
theorem claim_C6_counterexample :
    ¬((truncateString cfgA (List.replicate 1001 'a')).length =
        1001 + truncMarker.length) := by
  have h : (truncateString cfgA (List.replicate 1001 'a')).length = 1015 := by
    rw [truncateString, if_neg]
    · rw [List.length_append, List.length_take, List.length_replicate]
      decide
    · push_neg
      refine ⟨by decide, ?_⟩
      rw [List.length_replicate]
      decide
  rw [h]
  decide

/-- C6 amended: for a string longer than 1000 units with truncation enabled,
the output has length exactly 1000 plus the marker length, and consists of a
length-1000 prefix of the input followed by the marker. -/
theorem claim_C6_amended (cfg : Config) (s : List Char)
    (he : cfg.enableTruncation = true) (h : MAX_STRING_LENGTH < s.length) :
    (truncateString cfg s).length = MAX_STRING_LENGTH + truncMarker.length ∧
    ∃ p rest, truncateString cfg s = p ++ truncMarker ∧ s = p ++ rest ∧
      p.length = MAX_STRING_LENGTH := by
  have hne : ¬(cfg.enableTruncation = false ∨ s.length ≤ MAX_STRING_LENGTH) := by
    push_neg
    refine ⟨?_, by omega⟩
    rw [he]
    exact fun hf => nomatch hf
  have h1 : truncateString cfg s = s.take MAX_STRING_LENGTH ++ truncMarker := by
    rw [truncateString, if_neg hne]
  have hlen : (s.take MAX_STRING_LENGTH).length = MAX_STRING_LENGTH := by
    simp [List.length_take]
    omega
  refine ⟨?_, s.take MAX_STRING_LENGTH, s.drop MAX_STRING_LENGTH,
    h1, (List.take_append_drop MAX_STRING_LENGTH s).symm, hlen⟩
  rw [h1]
  simp [hlen]

/-- Witness for `claim_C6_amended` on a 1001-character string. -/
theorem claim_C6_witness :
    cfgA.enableTruncation = true ∧
    MAX_STRING_LENGTH < (List.replicate 1001 'a').length ∧
    ((truncateString cfgA (List.replicate 1001 'a')).length =
        MAX_STRING_LENGTH + truncMarker.length ∧
      ∃ p rest, truncateString cfgA (List.replicate 1001 'a') = p ++ truncMarker ∧
        List.replicate 1001 'a' = p ++ rest ∧ p.length = MAX_STRING_LENGTH) :=
  ⟨by decide, by rw [List.length_replicate]; decide,
    claim_C6_amended cfgA (List.replicate 1001 'a') (by decide)
      (by rw [List.length_replicate]; decide)⟩

/-! ### Claim C7 -/

/-- C7: stage 1 walks only one level of nesting.  A top-level sequence
within the limit passes verbatim (so nothing inside it is limited); an
over-long top-level sequence keeps its first `maxResults` elements verbatim
(so sequences inside those elements are not limited); an object is mapped
memberwise by a function that changes only members whose value is itself a
sequence (so a sequence under a non-sequence member, e.g. inside an object
inside the top object, is never limited) and limits exactly the direct
sequence-valued members; and non-sequence, non-object values pass through
unchanged. -/
theorem claim_C7_one_level (cfg : Config) :
    (∀ xs : List Json, xs.length ≤ effMaxResults cfg →
        limitResults cfg (.arr xs) = .arr xs) ∧
    (∀ xs : List Json, effMaxResults cfg < xs.length →
        ∃ msg, limitResults cfg (.arr xs) =
          .obj [("results", .arr (xs.take (effMaxResults cfg))),
                ("total_available", .num xs.length),
                ("returned", .num (effMaxResults cfg)),
                ("truncated", .bool true),
                ("message", .str msg)]) ∧
    (∃ g : String × Json → String × Json,
      (∀ fs, limitResults cfg (.obj fs) = .obj (fs.map g)) ∧
      (∀ kv : String × Json, kv.2.isArr = false → g kv = kv) ∧
      (∀ k ys, g (k, .arr ys) = (k, limitArray (effMaxResults cfg) ys))) ∧
    (∀ j : Json, j.isArr = false → (∀ fs, j ≠ .obj fs) →
        limitResults cfg j = j) := by
  refine ⟨fun xs h => limitResults_arr_of_le cfg xs h, ?_, ?_, ?_⟩
  · intro xs h
    exact ⟨limitMsg (effMaxResults cfg) xs.length,
      by show limitArray (effMaxResults cfg) xs = _
         exact limitArray_of_lt (effMaxResults cfg) xs h⟩
  · refine ⟨fun kv =>
      match kv.2 with
      | .arr ys => (kv.1, limitArray (effMaxResults cfg) ys)
      | _ => kv, fun fs => ?_, fun kv hkv => ?_, fun k ys => rfl⟩
    · show Json.obj _ = Json.obj _
      refine congrArg Json.obj (List.map_eq_map_iff.mpr fun kv _ => ?_)
      obtain ⟨k, v⟩ := kv
      cases v <;> rfl
    · obtain ⟨k, v⟩ := kv
      cases v <;> first
        | rfl
        | exact absurd hkv (by simp [Json.isArr])
  · intro j h1 h2
    cases j with
    | null => rfl
    | bool b => rfl
    | num n => rfl
    | str s => rfl
    | obj fs => exact absurd rfl (h2 fs)
    | arr es => exact absurd h1 (by simp [Json.isArr])

/-- Witness for `claim_C7_one_level`: a one-element sequence passes
unchanged, and a 60-element sequence (over the limit of 50) nested two
levels deep (inside an object inside the top-level object) is not
limited. -/
theorem claim_C7_witness :
    limitResults cfgA (.arr [Json.null]) = .arr [Json.null] ∧
    limitResults cfgA
        (.obj [("deep", Json.obj [("inner", Json.arr (List.replicate 60 Json.null))])]) =
      .obj [("deep", Json.obj [("inner", Json.arr (List.replicate 60 Json.null))])] := by
  have h := claim_C7_one_level cfgA
  refine ⟨h.1 [Json.null] (by decide), ?_⟩
  obtain ⟨g, hg1, hg2, _hg3⟩ := h.2.2.1
  rw [hg1, List.map_cons, List.map_nil, hg2 _ (by rfl)]

/-! ### Claim C8 -/

/-- The contribution of one argument to the query: nothing for absent or
null values, one pair per element for sequences, one pair for scalars. -/
def expandParam (kv : String × Arg) : List (String × List Char) :=
  match kv.2 with
  | .undef => []
  | .jsNull => []
  | .list vs => vs.map fun x => (kv.1, x)
  | v => [(kv.1, argToString v)]

/-- The append-only `forEach` loop accumulates exactly the concatenation of
each argument's contribution, in argument order. -/
theorem addStep_foldl :
    ∀ (ps : List (String × Arg)) (acc : List (String × List Char)),
      ps.foldl addStep acc = acc ++ ps.flatMap expandParam
  | [], acc => by simp
  | kv :: ps, acc => by
      rw [List.foldl_cons, addStep_foldl ps]
      obtain ⟨k, v⟩ := kv
      cases v <;> simp [addStep, expandParam]

/-- C8: URL construction appends one query parameter per argument whose
value is neither absent nor null, one occurrence per element for sequence
values in order, and omits absent/null keys entirely; on the bag
`{domain: "example.com", device_id: ["a","b"], limit: undefined}` the built
query string is `domain=example.com&device_id=a&device_id=b` with no
`limit` key. -/
theorem claim_C8_query (params : List (String × Arg)) :
    addParams params = params.flatMap expandParam ∧
    queryString (addParams
      [("domain", .s "example.com".data),
       ("device_id", .list ["a".data, "b".data]),
       ("limit", .undef)]) = "domain=example.com&device_id=a&device_id=b".data ∧
    "limit" ∉ (addParams
      [("domain", .s "example.com".data),
       ("device_id", .list ["a".data, "b".data]),
       ("limit", .undef)]).map Prod.fst := by
  refine ⟨?_, by decide, by decide⟩
  rw [addParams, addStep_foldl params []]
  rfl

/-! ### Claim C10 -/

/-- C10: invoking `analyze_domain` with no `fqdn` entry in the argument bag
fails locally with the missing-required-parameter error and issues no
outbound HTTP request (the request counter of the handler is 0). -/
theorem claim_C10_missing_fqdn (cfg : Config) (resp : HttpResponse)
    (args : List (String × Arg)) (h : args.lookup "fqdn" = none) :
    handleToolCall cfg resp "analyze_domain" args =
      (⟨"Error: fqdn parameter is required".data, true⟩, 0) := by
  have hr : route "analyze_domain" args = .error "fqdn parameter is required".data := by
    simp only [route, h]
  rw [handleToolCall, hr]
  show ((⟨"Error: ".data ++ enrich "fqdn parameter is required".data, true⟩ : ToolResponse), 0) = _
  decide

/-- Witness for `claim_C10_missing_fqdn` on the empty argument bag. -/
theorem claim_C10_witness :
    (([] : List (String × Arg)).lookup "fqdn" = none) ∧
    handleToolCall cfgA ⟨200, [], .null⟩ "analyze_domain" [] =
      (⟨"Error: fqdn parameter is required".data, true⟩, 0) :=
  ⟨rfl, claim_C10_missing_fqdn cfgA ⟨200, [], .null⟩ [] rfl⟩

/-! ### Claim C9 -/

/-- C9: on a non-2xx status the gateway fails with the API error carrying
the numeric status and status text, and the handler catches it (no crash:
`handleToolCall` is total) and returns a textual payload with `isError`
set whose text starts with the error message (optionally followed by the
size hint).  The concrete 503 conjuncts show the payload contains the
status code `503` but no `results` field. -/
theorem claim_C9_http_error (cfg : Config) (st : Nat) (stx : List Char)
    (body : Json) (name : String) (args : List (String × Arg))
    (ep : String) (ps : List (String × Arg))
    (hroute : route name args = .ok (ep, ps))
    (hst : ¬(200 ≤ st ∧ st ≤ 299)) :
    makeRequest cfg ⟨st, stx, body⟩ = .error (apiErrMsg ⟨st, stx, body⟩) ∧
    (handleToolCall cfg ⟨st, stx, body⟩ name args).1.isError = true ∧
    (handleToolCall cfg ⟨st, stx, body⟩ name args).2 = 1 ∧
    (∃ tail, (handleToolCall cfg ⟨st, stx, body⟩ name args).1.text =
        ("Error: ".data ++ apiErrMsg ⟨st, stx, body⟩) ++ tail) ∧
    containsSub "503".data (handleToolCall cfgA
      ⟨503, "Service Unavailable".data, .null⟩ "search_events" []).1.text = true ∧
    containsSub "results".data (handleToolCall cfgA
      ⟨503, "Service Unavailable".data, .null⟩ "search_events" []).1.text = false := by
  have hok : respOk ⟨st, stx, body⟩ = false := by
    simp only [respOk, Bool.and_eq_false_iff, decide_eq_false_iff_not]
    omega
  have hm : makeRequest cfg ⟨st, stx, body⟩ = .error (apiErrMsg ⟨st, stx, body⟩) := by
    rw [makeRequest, if_neg (by simp [hok])]
  have hh : handleToolCall cfg ⟨st, stx, body⟩ name args =
      (⟨"Error: ".data ++ enrich (apiErrMsg ⟨st, stx, body⟩), true⟩, 1) := by
    rw [handleToolCall, hroute, hm]
  refine ⟨hm, by rw [hh], by rw [hh], ?_, by decide, by decide⟩
  rw [hh]
  by_cases hc : (containsSub "too large".data (apiErrMsg ⟨st, stx, body⟩) ||
      containsSub "truncated".data (apiErrMsg ⟨st, stx, body⟩)) = true
  · refine ⟨"\n\nTip: Try using more specific filters (date ranges, domains, IPs) or pagination to get smaller result sets.".data, ?_⟩
    show "Error: ".data ++ enrich (apiErrMsg ⟨st, stx, body⟩) = _
    rw [enrich, if_pos hc, List.append_assoc]
  · refine ⟨[], ?_⟩
    show "Error: ".data ++ enrich (apiErrMsg ⟨st, stx, body⟩) = _
    rw [enrich, if_neg hc, List.append_nil]

/-- Witness for `claim_C9_http_error`: a 503 response to `search_events`. -/
theorem claim_C9_witness :
    (route "search_events" ([] : List (String × Arg)) = .ok ("/events/search", [])) ∧
    (¬(200 ≤ 503 ∧ 503 ≤ 299)) ∧
    makeRequest cfgA ⟨503, "Service Unavailable".data, .null⟩ =
      .error (apiErrMsg ⟨503, "Service Unavailable".data, .null⟩) ∧
    (handleToolCall cfgA ⟨503, "Service Unavailable".data, .null⟩
      "search_events" []).1.isError = true ∧
    (handleToolCall cfgA ⟨503, "Service Unavailable".data, .null⟩
      "search_events" []).2 = 1 := by
  have h := claim_C9_http_error cfgA 503 "Service Unavailable".data .null
    "search_events" [] "/events/search" [] rfl (by decide)
  exact ⟨rfl, by decide, h.1, h.2.1, h.2.2.1⟩

/-! ### Claim C3: idempotence of the full pipeline -/

/-- A map whose function fixes every member of a list is the identity. -/
theorem map_id_of_mem {α : Type} (f : α → α) :
    ∀ l : List α, (∀ x ∈ l, f x = x) → l.map f = l
  | [], _ => rfl
  | x :: l, h => by
      rw [List.map_cons, h x (by simp),
        map_id_of_mem f l fun y hy => h y (by simp [hy])]

/-- Conversely, a map that reproduces the list fixes every member. -/
theorem eq_of_map_eq {α : Type} (f : α → α) :
    ∀ l : List α, l.map f = l → ∀ x ∈ l, f x = x
  | a :: l, h, x, hx => by
      rw [List.map_cons] at h
      injection h with h1 h2
      rcases List.mem_cons.mp hx with rfl | hx2
      · exact h1
      · exact eq_of_map_eq f l h2 x hx2

/-- `limitArray` leaves an array within the count limit unchanged. -/
theorem limitArray_of_le (m : Nat) (xs : List Json) (h : xs.length ≤ m) :
    limitArray m xs = .arr xs := by
  simp only [limitArray]
  rw [if_neg (by omega), List.take_of_length_le h]

/-- When `limitArray` returns an array, it is the `take` of its input. -/
theorem limitArray_arr_inv (m : Nat) (zs ys : List Json)
    (h : limitArray m zs = .arr ys) : ys = zs.take m := by
  by_cases hlt : m < zs.length
  · rw [limitArray_of_lt m zs hlt] at h
    exact absurd h (by simp)
  · rw [limitArray_of_le m zs (by omega)] at h
    rw [List.take_of_length_le (by omega)]
    exact (Json.arr.inj h).symm

/-- When `truncateObject` (enabled) returns an array, its input was an array
and the output is the elementwise truncation. -/
theorem trunc_arr_inv (cfg : Config) (he : ¬cfg.enableTruncation = false)
    (v : Json) (ys : List Json) (h : truncateObject cfg v = .arr ys) :
    ∃ zs, v = .arr zs ∧ ys = zs.map (truncateObject cfg) := by
  cases v with
  | arr zs =>
      rw [truncateObject_arr cfg he] at h
      exact ⟨zs, rfl, (Json.arr.inj h).symm⟩
  | null => rw [truncateObject_null cfg he] at h; exact absurd h (by simp)
  | bool b => rw [truncateObject_bool cfg he] at h; exact absurd h (by simp)
  | num n => rw [truncateObject_num cfg he] at h; exact absurd h (by simp)
  | str s => rw [truncateObject_str cfg he] at h; exact absurd h (by simp)
  | obj fs => rw [truncateObject_obj cfg he] at h; exact absurd h (by simp)

/-- The state after stage 1: the top-level value, if an array, is within the
count limit, and every direct array member of a top-level object is within
the count limit.  This is the invariant that makes stage 1 idempotent. -/
def countBounded (cfg : Config) : Json → Prop
  | .arr xs => xs.length ≤ effMaxResults cfg
  | .obj fs => ∀ k ys, (k, Json.arr ys) ∈ fs → ys.length ≤ effMaxResults cfg
  | _ => True

/-- Stage 1 is the identity on count-bounded values. -/
theorem limitResults_of_countBounded (cfg : Config) (j : Json)
    (h : countBounded cfg j) : limitResults cfg j = j := by
  cases j with
  | arr xs => exact limitResults_arr_of_le cfg xs h
  | obj fs =>
      show Json.obj _ = Json.obj fs
      refine congrArg Json.obj (map_id_of_mem _ fs fun kv hkv => ?_)
      obtain ⟨k0, v0⟩ := kv
      cases v0 with
      | arr ys => exact congrArg _ (limitArray_of_le _ ys (h k0 ys hkv))
      | null => rfl
      | bool b => rfl
      | num n => rfl
      | str s => rfl
      | obj gs => rfl
  | null => rfl
  | bool b => rfl
  | num n => rfl
  | str s => rfl

/-- Stage 1 establishes the count-bounded invariant. -/
theorem countBounded_limitResults (cfg : Config) (j : Json) :
    countBounded cfg (limitResults cfg j) := by
  cases j with
  | arr xs =>
      show countBounded cfg (limitArray (effMaxResults cfg) xs)
      by_cases hlt : effMaxResults cfg < xs.length
      · rw [limitArray_of_lt _ xs hlt]
        intro k ys hmem
        simp only [List.mem_cons, List.not_mem_nil, or_false, Prod.mk.injEq] at hmem
        rcases hmem with ⟨_, h2⟩ | ⟨_, h2⟩ | ⟨_, h2⟩ | ⟨_, h2⟩ | ⟨_, h2⟩ <;>
          first
            | (rw [← Json.arr.inj h2.symm]
               simp [List.length_take])
            | exact absurd h2 (by simp)
      · rw [limitArray_of_le _ xs (by omega)]
        show xs.length ≤ effMaxResults cfg
        omega
  | obj fs =>
      intro k ys hmem
      rcases List.mem_map.mp hmem with ⟨kv, hkv, heq⟩
      obtain ⟨k0, v0⟩ := kv
      cases v0 with
      | arr zs =>
          simp only [Prod.mk.injEq] at heq
          rw [limitArray_arr_inv _ zs ys heq.2]
          simp [List.length_take]
      | null => exact absurd (Prod.mk.injEq .. ▸ heq).2 (by simp)
      | bool b => exact absurd (Prod.mk.injEq .. ▸ heq).2 (by simp)
      | num n => exact absurd (Prod.mk.injEq .. ▸ heq).2 (by simp)
      | str s => exact absurd (Prod.mk.injEq .. ▸ heq).2 (by simp)
      | obj gs => exact absurd (Prod.mk.injEq .. ▸ heq).2 (by simp)
  | null => trivial
  | bool b => trivial
  | num n => trivial
  | str s => trivial

/-- Stage 2 preserves the count-bounded invariant: it maps arrays to arrays
of the same length and objects to objects with the same keys. -/
theorem countBounded_truncateObject (cfg : Config) (j : Json)
    (h : countBounded cfg j) : countBounded cfg (truncateObject cfg j) := by
  by_cases he : cfg.enableTruncation = false
  · rw [truncateObject_off cfg he]; exact h
  · cases j with
    | arr xs =>
        rw [truncateObject_arr cfg he]
        show (xs.map (truncateObject cfg)).length ≤ effMaxResults cfg
        rw [List.length_map]
        exact h
    | obj fs =>
        rw [truncateObject_obj cfg he]
        intro k ys hmem
        rcases List.mem_map.mp hmem with ⟨kv, hkv, heq⟩
        simp only [Prod.mk.injEq] at heq
        rcases trunc_arr_inv cfg he kv.2 ys heq.2 with ⟨zs, hzs, hys⟩
        have hlen := h kv.1 zs (by rw [← hzs]; exact hkv)
        rw [hys, List.length_map]
        exact hlen
    | null => rw [truncateObject_null cfg he]; trivial
    | bool b => rw [truncateObject_bool cfg he]; trivial
    | num n => rw [truncateObject_num cfg he]; trivial
    | str s => rw [truncateObject_str cfg he]; trivial

/-- On an oversized non-array value, stage 3 falls back to a second
string-truncation pass. -/
theorem enforce_not_arr (cfg : Config) (j : Json) (hj : j.isArr = false)
    (h : ¬(stringify j).length ≤ effMaxSize cfg) :
    enforceResponseSize cfg j = truncateObject cfg j := by
  cases j with
  | arr xs => exact absurd hj (by simp [Json.isArr])
  | null => simp only [enforceResponseSize.eq_def]; rw [if_neg h]
  | bool b => simp only [enforceResponseSize.eq_def]; rw [if_neg h]
  | num n => simp only [enforceResponseSize.eq_def]; rw [if_neg h]
  | str s => simp only [enforceResponseSize.eq_def]; rw [if_neg h]
  | obj fs => simp only [enforceResponseSize.eq_def]; rw [if_neg h]

/-- The estimated item budget of stage 3 for an oversized array: 80% of the
size limit divided by the average serialized item size, and at least one. -/
def sizeBudget (cfg : Config) (xs : List Json) : Nat :=
  max 1 ((4 * effMaxSize cfg) / (5 * ((stringify (Json.arr xs)).length / xs.length)))

/-- On an oversized array, stage 3 produces the size wrapper with the
estimated item budget. -/
theorem enforce_arr_of_gt (cfg : Config) (xs : List Json)
    (h : ¬(stringify (Json.arr xs)).length ≤ effMaxSize cfg) :
    enforceResponseSize cfg (.arr xs) =
      .obj [("results", .arr (xs.take (sizeBudget cfg xs))),
            ("total_available", .num xs.length),
            ("returned", .num (sizeBudget cfg xs)),
            ("truncated", .bool true),
            ("message", .str (sizeMsg (sizeBudget cfg xs) xs.length))] := by
  simp only [enforceResponseSize.eq_def, sizeBudget]
  rw [if_neg h]

/-- The effective size limit inherits the configured bound (the default is
far smaller). -/
theorem effMaxSize_lt (cfg : Config) (h : cfg.maxResponseSize < 10 ^ 100) :
    effMaxSize cfg < 10 ^ 100 := by
  rw [effMaxSize]
  split
  · have : (50000 : Nat) < 10 ^ 5 := by norm_num
    calc DEFAULT_MAX_RESPONSE_SIZE < 10 ^ 5 := this
      _ ≤ 10 ^ 100 := Nat.pow_le_pow_right (by norm_num) (by norm_num)
  · exact h

/-- The effective result limit inherits the configured bound. -/
theorem effMaxResults_lt (cfg : Config) (h : cfg.maxResults < 10 ^ 100) :
    effMaxResults cfg < 10 ^ 100 := by
  rw [effMaxResults]
  split
  · have : (50 : Nat) < 10 ^ 2 := by norm_num
    calc DEFAULT_MAX_RESULTS < 10 ^ 2 := this
      _ ≤ 10 ^ 100 := Nat.pow_le_pow_right (by norm_num) (by norm_num)
  · exact h

/-- The stage-3 wrapper message stays within the string-truncation limit
whenever its two rendered counts are below `10 ^ 101` and `10 ^ 100`. -/
theorem sizeMsg_length_le (r t : Nat) (hr : r < 10 ^ 101) (ht : t < 10 ^ 100) :
    (sizeMsg r t).length ≤ MAX_STRING_LENGTH := by
  have h1 := jsNat_length_le 101 r hr (by norm_num)
  have h2 := jsNat_length_le 100 t ht (by norm_num)
  simp [sizeMsg, MAX_STRING_LENGTH]
  omega

/-- The estimated item budget of stage 3 is below `10 ^ 101` whenever the
configured size limit is below `10 ^ 100`. -/
theorem budget_lt (cfg : Config) (hs : cfg.maxResponseSize < 10 ^ 100)
    (xs : List Json) : sizeBudget cfg xs < 10 ^ 101 := by
  rw [sizeBudget]
  generalize (stringify (Json.arr xs)).length / xs.length = i
  have hS := effMaxSize_lt cfg hs
  have hdiv : (4 * effMaxSize cfg) / (5 * i) ≤ 4 * effMaxSize cfg :=
    Nat.div_le_self _ _
  have hpow : (10 : Nat) ^ 101 = 10 * 10 ^ 100 := by
    rw [Nat.mul_comm, ← pow_succ]
  have hpos : 0 < (10 : Nat) ^ 100 := Nat.pos_pow_of_pos 100 (by norm_num)
  omega

/-- The wrapper object produced by stage 3 for an oversized array. -/
def sizeWrap (cfg : Config) (xs : List Json) : Json :=
  .obj [("results", .arr (xs.take (sizeBudget cfg xs))),
        ("total_available", .num xs.length),
        ("returned", .num (sizeBudget cfg xs)),
        ("truncated", .bool true),
        ("message", .str (sizeMsg (sizeBudget cfg xs) xs.length))]

/-- `enforce_arr_of_gt` restated through `sizeWrap`. -/
theorem enforce_arr_wrap (cfg : Config) (xs : List Json)
    (h : ¬(stringify (Json.arr xs)).length ≤ effMaxSize cfg) :
    enforceResponseSize cfg (.arr xs) = sizeWrap cfg xs := by
  rw [sizeWrap]
  exact enforce_arr_of_gt cfg xs h

/-- C3: the full Shaper pipeline is idempotent, for every configuration
whose two numeric limits render in at most 100 decimal digits (true of
every value a JavaScript number can take; without such a bound the
wrapper messages could themselves exceed the string-truncation limit).
This is stronger than the claim, which allows an exception where stage 3's
oversized-object fallback interacts with stage 2: no exception is needed,
because the fallback (a second `truncateObject` pass) is idempotent. -/
theorem claim_C3_idempotent (cfg : Config) (v : Json)
    (hm : cfg.maxResults < 10 ^ 100) (hs : cfg.maxResponseSize < 10 ^ 100) :
    processResponse cfg (processResponse cfg v) = processResponse cfg v := by
  have hcbA : countBounded cfg (limitResults cfg v) := countBounded_limitResults cfg v
  have hcbB : countBounded cfg (truncateObject cfg (limitResults cfg v)) :=
    countBounded_truncateObject cfg _ hcbA
  have htB : truncateObject cfg (truncateObject cfg (limitResults cfg v)) =
      truncateObject cfg (limitResults cfg v) := truncateObject_idem cfg _
  generalize hBdef : truncateObject cfg (limitResults cfg v) = B at hcbB htB
  have hlB : limitResults cfg B = B := limitResults_of_countBounded cfg B hcbB
  have hPv : processResponse cfg v = enforceResponseSize cfg B := by
    rw [processResponse, hBdef]
  by_cases hfit : (stringify B).length ≤ effMaxSize cfg
  · have h1 : processResponse cfg v = B := hPv.trans (enforce_of_le cfg B hfit)
    rw [h1, processResponse, hlB, htB]
    exact enforce_of_le cfg B hfit
  · by_cases hisarr : B.isArr = true
    · obtain ⟨xs, rfl⟩ : ∃ xs, B = .arr xs := by
        cases B with
        | arr xs => exact ⟨xs, rfl⟩
        | null => simp [Json.isArr] at hisarr
        | bool b => simp [Json.isArr] at hisarr
        | num n => simp [Json.isArr] at hisarr
        | str s => simp [Json.isArr] at hisarr
        | obj fs => simp [Json.isArr] at hisarr
      have hxslen : xs.length ≤ effMaxResults cfg := hcbB
      rw [enforce_arr_wrap cfg xs hfit] at hPv
      have hkb : sizeBudget cfg xs < 10 ^ 101 := budget_lt cfg hs xs
      have hnb : xs.length < 10 ^ 100 :=
        lt_of_le_of_lt hxslen (effMaxResults_lt cfg hm)
      have hmsg : (sizeMsg (sizeBudget cfg xs) xs.length).length ≤ MAX_STRING_LENGTH :=
        sizeMsg_length_le _ _ hkb hnb
      have hxsfix : ∀ x ∈ xs, truncateObject cfg x = x := by
        by_cases he : cfg.enableTruncation = false
        · intro x _
          exact truncateObject_off cfg he x
        · rw [truncateObject_arr cfg he] at htB
          exact eq_of_map_eq _ xs (Json.arr.inj htB)
      have htW : truncateObject cfg (sizeWrap cfg xs) = sizeWrap cfg xs := by
        by_cases he : cfg.enableTruncation = false
        · exact truncateObject_off cfg he _
        · rw [sizeWrap, truncateObject_obj cfg he]
          simp only [List.map_cons, List.map_nil]
          rw [truncateObject_arr cfg he, truncateObject_num cfg he,
            truncateObject_num cfg he, truncateObject_bool cfg he,
            truncateObject_str cfg he,
            map_id_of_mem _ _ fun x hx => hxsfix x (List.take_subset _ xs hx),
            truncateString_of_le cfg _ hmsg]
      have hcbW : countBounded cfg (sizeWrap cfg xs) := by
        rw [sizeWrap]
        intro k ys hmem
        simp only [List.mem_cons, List.not_mem_nil, or_false, Prod.mk.injEq] at hmem
        rcases hmem with ⟨_, h2⟩ | ⟨_, h2⟩ | ⟨_, h2⟩ | ⟨_, h2⟩ | ⟨_, h2⟩ <;>
          first
            | (rw [Json.arr.inj h2, List.length_take]
               omega)
            | exact absurd h2 (by simp)
      have hlW : limitResults cfg (sizeWrap cfg xs) = sizeWrap cfg xs :=
        limitResults_of_countBounded cfg _ hcbW
      have hPW : processResponse cfg (sizeWrap cfg xs) = sizeWrap cfg xs := by
        rw [processResponse, hlW, htW]
        by_cases hWfit : (stringify (sizeWrap cfg xs)).length ≤ effMaxSize cfg
        · exact enforce_of_le cfg _ hWfit
        · rw [enforce_not_arr cfg _ (by simp [sizeWrap, Json.isArr]) hWfit, htW]
      rw [hPv]
      exact hPW
    · rw [Bool.not_eq_true] at hisarr
      have hEB : enforceResponseSize cfg B = B :=
        (enforce_not_arr cfg B hisarr hfit).trans htB
      have h1 : processResponse cfg v = B := hPv.trans hEB
      rw [h1, processResponse, hlB, htB, hEB]

/-- Witness for `claim_C3_idempotent` under the default configuration. -/
theorem claim_C3_witness :
    cfgA.maxResults < 10 ^ 100 ∧ cfgA.maxResponseSize < 10 ^ 100 ∧
    processResponse cfgA (processResponse cfgA (.arr [.str "hello".data])) =
      processResponse cfgA (.arr [.str "hello".data]) :=
  ⟨by norm_num [cfgA], by norm_num [cfgA],
    claim_C3_idempotent cfgA (.arr [.str "hello".data])
      (by norm_num [cfgA]) (by norm_num [cfgA])⟩

end Whalebone
